import Mathlib

/-!
Shallow embedding of the watch-history statistics aggregator
(`src/services/StatsService.ts`) of the sidetrack repository, together with
proofs relating it to its specification.

Modelling conventions:
- Timestamps (ISO strings in the source) are modelled as milliseconds since
  the Unix epoch (`Nat`), interpreted in UTC. `new Date(s).getTime()` is the
  identity in this model, `toISOString().split('T')[0]` is division by the
  number of milliseconds in a day.
- Ratings and other JavaScript numbers are modelled as rationals; `Math.round`
  is modelled by `jsRound q = ⌊q + 1/2⌋` (JavaScript rounds half toward
  positive infinity). `Math.ceil` on a nonnegative exact quotient is modelled
  by `Nat` ceiling division.
- JavaScript `Record` objects built by repeated `rec[k] = (rec[k] || 0) + 1`
  are modelled as association lists in key insertion order (`countByKeys`):
  for string keys, `Object.entries` iterates in insertion order. For records
  with numeric keys (`showCounts`), `Object.values` iterates in ascending
  numeric key order, modelled by sorting the distinct keys (`showIds`).
- `WrappedStats` fields that are pure presentation slices of already-modelled
  data (`highestRatedMovies`, `lowestRatedMovies`, `highestRatedShows`,
  `genreByAvgRating`, `showsWithMostEpisodes`) and the formatting-only string
  `funTimeEquivalent` are not modelled; the personality record is modelled by
  its label (the emoji and description are a static lookup keyed by the
  label).
-/

namespace Sidetrack

attribute [local semireducible] Rat.add Rat.mul Rat.inv Rat.sub

/-- Milliseconds in one calendar day (`1000 * 60 * 60 * 24`). -/
def MS_PER_DAY : ℕ := 86400000

/-- `Math.round`: JavaScript rounds half toward positive infinity. -/
def jsRound (q : ℚ) : ℤ := ⌊q + 1 / 2⌋

/-- JavaScript truthiness of an optional string (`undefined` and `""` are
falsy). -/
def truthyStr (s : Option String) : Bool :=
  match s with
  | none => false
  | some s => s ≠ ""

/-- `WatchedMovie` (`src/types.ts`): one entry per logged movie watch.
`releaseDate` is modelled by its parsed year (`parseInt(releaseDate.split('-')[0])`),
`none` when unparsable; image and overview fields are omitted. The source
type has no `review` field, but `determinePersonality` reads one dynamically
(`(m as any).review`), so it is modelled as an optional string. -/
structure WatchedMovie where
  movieId : ℕ
  title : String
  rating : ℚ
  watchedDate : ℕ
  runtime : ℕ
  releaseYear : Option ℕ
  genres : List String
  review : Option String
deriving Repr, DecidableEq

/-- `WatchedEpisode` (`src/types.ts`); image fields omitted, the optional
`runtime` is modelled with `0` for absent (the source always guards it with
`|| 0`). -/
structure WatchedEpisode where
  episodeId : ℕ
  seriesId : ℕ
  seriesName : Option String
  seasonNumber : ℕ
  episodeNumber : ℕ
  rating : ℚ
  watchedDate : ℕ
  liked : Bool
  review : Option String
  tags : List String
  runtime : ℕ
  genres : List String
deriving Repr, DecidableEq

/-- `getDateKey`: `new Date(dateStr).toISOString().split('T')[0]`, i.e. the
UTC calendar day of the timestamp, modelled as the epoch day number. -/
def getDateKey (ms : ℕ) : ℕ := ms / MS_PER_DAY

/-- Civil (year, month) of an epoch day number (proleptic Gregorian, from the
standard era-based conversion algorithm). Used for `getMonthKey`. -/
def civilYM (day : ℕ) : ℕ × ℕ :=
  let zz := day + 719468
  let era := zz / 146097
  let doe := zz % 146097
  let yoe := (doe - doe / 1460 + doe / 36524 - doe / 146096) / 365
  let y := yoe + era * 400
  let doy := doe - (365 * yoe + yoe / 4 - yoe / 100)
  let mp := (5 * doy + 2) / 153
  let m := if mp < 10 then mp + 3 else mp - 9
  (if m ≤ 2 then y + 1 else y, m)

/-- `getMonthKey`: the year-month of an entry's date (the source renders it
as `"YYYY-MM"`; the pair is an equivalent key). -/
def getMonthKey (ms : ℕ) : ℕ × ℕ := civilYM (getDateKey ms)

/-- The `days` array of `getDayOfWeek`. -/
def dayNames : List String :=
  ["Sunday", "Monday", "Tuesday", "Wednesday", "Thursday", "Friday", "Saturday"]

/-- `getDayOfWeek`: day-of-week name of a timestamp (epoch day 0 was a
Thursday, and `getDay` numbers Sunday as 0). -/
def getDayOfWeek (ms : ℕ) : String := dayNames.getD ((getDateKey ms + 4) % 7) ""

/-- The `months` array of `getMonthName`. -/
def monthNames : List String :=
  ["Jan", "Feb", "Mar", "Apr", "May", "Jun", "Jul", "Aug", "Sep", "Oct", "Nov", "Dec"]

/-- `getMonthName`: display string for a year-month key. -/
def getMonthName (ym : ℕ × ℕ) : String :=
  monthNames.getD (ym.2 - 1) "" ++ " " ++ toString ym.1

/-- `getDecade` applied to a parsed year: `Math.floor(year / 10) * 10`
(the source suffixes `"s"` for display; the number is an equivalent key). -/
def getDecade (year : ℕ) : ℕ := year / 10 * 10

/-- One step of building a JavaScript count `Record`:
`rec[k] = (rec[k] || 0) + 1`, on an association list in insertion order. -/
def incKey {κ : Type} [DecidableEq κ] (acc : List (κ × ℕ)) (k : κ) : List (κ × ℕ) :=
  if ∃ p ∈ acc, p.1 = k then
    acc.map fun p => if p.1 = k then (p.1, p.2 + 1) else p
  else acc ++ [(k, 1)]

/-- A JavaScript count `Record` built by a `forEach` of `incKey` steps, as an
association list whose keys appear in first-occurrence order. -/
def countByKeys {κ : Type} [DecidableEq κ] (keys : List κ) : List (κ × ℕ) :=
  keys.foldl incKey []

/-- `Object.entries(rec).sort((a, b) => b[1] - a[1])[0]`: the first entry
holding the maximal count (JavaScript `sort` is stable, so the head of the
descending stable sort is the first entry attaining the maximum, which this
fold computes directly). -/
def topEntry {κ : Type} (l : List (κ × ℕ)) : Option (κ × ℕ) :=
  l.foldl
    (fun best p =>
      match best with
      | none => some p
      | some b => if p.2 > b.2 then some p else best)
    none

/-- The loop of `computeStreak`: `prev` is the previous unique day, `maxS` the
running maximum streak, `curS` the current streak. -/
def streakAux : ℕ → ℕ → ℕ → List ℕ → ℕ
  | _, maxS, _, [] => maxS
  | prev, maxS, curS, d :: rest =>
    if d - prev = 1 then streakAux d (max maxS (curS + 1)) (curS + 1) rest
    else streakAux d maxS 1 rest

/-- The `uniqueDays` of `computeStreak`:
`[...new Set(dates.map(getDateKey))].sort()` (for day-key strings the
lexicographic sort is the numeric sort). -/
def uniqueDayKeys (dates : List ℕ) : List ℕ :=
  ((dates.map getDateKey).dedup).insertionSort (· ≤ ·)

/-- `computeStreak`: longest run of consecutive unique watch days, by a scan
of the sorted unique day keys (the day difference
`Math.round(diffMs / MS_PER_DAY)` of two day keys is exact). -/
def computeStreak (dates : List ℕ) : ℕ :=
  match uniqueDayKeys dates with
  | [] => 0
  | d :: rest => streakAux d 1 1 rest

/-- The `combinedAvg` of `determinePersonality`, exactly as computed by the
source: the mean of all movie ratings (raw 1 to 10 scale, entries with
rating 0 included) plus the mean of all episode ratings (raw 0.5 to 5 scale,
0 included), halved when both kinds of entries are present. -/
def codeCombinedAvg (movies : List WatchedMovie) (episodes : List WatchedEpisode) : ℚ :=
  let avgRating : ℚ :=
    if movies.length > 0 then ((movies.map (·.rating)).sum) / movies.length else 0
  let epAvg : ℚ :=
    if episodes.length > 0 then ((episodes.map (·.rating)).sum) / episodes.length else 0
  (avgRating + epAvg) / (if movies.length > 0 ∧ episodes.length > 0 then 2 else 1)

/-- `determinePersonality`, modelled by the label of the returned personality
record (`stats.topGenres` and `stats.totalHoursWatched` are the two fields of
the partial stats the source passes in; `0.3` is modelled as `3 / 10`). -/
def determinePersonality (topGenres : List (String × ℕ)) (totalHoursWatched : ℚ)
    (movies : List WatchedMovie) (episodes : List WatchedEpisode) : String :=
  let totalEntries := movies.length + episodes.length
  if totalEntries = 0 then "The Newcomer"
  else
    let combinedAvg := codeCombinedAvg movies episodes
    let reviewCount :=
      (movies.filter fun m => truthyStr m.review).length
        + (episodes.filter fun e => truthyStr e.review).length
    if episodes.length > movies.length * 3 then "The Binger"
    else if combinedAvg < 5 / 2 ∧ totalEntries > 10 then "The Critic"
    else if combinedAvg > 4 ∧ totalEntries > 10 then "The Enthusiast"
    else if topGenres.length > 5 then "The Explorer"
    else if (reviewCount : ℚ) > totalEntries * (3 / 10) then "The Reviewer"
    else if totalHoursWatched > 200 then "The Marathon Runner"
    else if movies.length > episodes.length then "The Cinephile"
    else "The Balanced Viewer"

/-- The rating-distribution bucket of a movie:
`Math.round((m.rating / 2) * 2) / 2` when `m.rating > 0`, skipped otherwise. -/
def movieBucket (m : WatchedMovie) : Option ℚ :=
  if 0 < m.rating then some ((jsRound (m.rating / 2 * 2) : ℚ) / 2) else none

/-- The rating-distribution bucket of an episode: its rating when `> 0`. -/
def episodeBucket (e : WatchedEpisode) : Option ℚ :=
  if 0 < e.rating then some e.rating else none

/-- `ratingDistribution`: the combined histogram, movies bucketed first and
then episodes, with keys (normalized ratings) in insertion order. Distinct
rationals have distinct JavaScript string forms, so the rational keys model
the string keys faithfully. -/
def ratingDistribution (movies : List WatchedMovie) (episodes : List WatchedEpisode) :
    List (ℚ × ℕ) :=
  countByKeys (movies.filterMap movieBucket ++ episodes.filterMap episodeBucket)

/-- The per-series aggregate of `showCounts`: episode count and first/last
watched dates, with the display name taken from the first episode
encountered (`e.seriesName || fallback`: the empty string is falsy). -/
structure ShowAgg where
  name : String
  count : ℕ
  firstDate : ℕ
  lastDate : ℕ
deriving Repr, DecidableEq

/-- The distinct series identifiers in ascending order: JavaScript objects
iterate integer-like keys in ascending numeric order. -/
def showIds (episodes : List WatchedEpisode) : List ℕ :=
  ((episodes.map (·.seriesId)).dedup).insertionSort (· ≤ ·)

/-- The display name a series entry gets when it is created in `showCounts`. -/
def showDisplayName (sid : ℕ) (e : WatchedEpisode) : String :=
  match e.seriesName with
  | some s => if s = "" then "Show " ++ toString sid else s
  | none => "Show " ++ toString sid

/-- The `showCounts` entry for one series: built by the same fold the source
runs over that series' episodes in order (count increments, first/last date
updates by strict comparison). -/
def showAggOf (episodes : List WatchedEpisode) (sid : ℕ) : Option ShowAgg :=
  match episodes.filter (fun e => e.seriesId = sid) with
  | [] => none
  | e :: rest =>
    some <| rest.foldl
      (fun s e' =>
        { s with
          count := s.count + 1
          firstDate := if e'.watchedDate < s.firstDate then e'.watchedDate else s.firstDate
          lastDate := if s.lastDate < e'.watchedDate then e'.watchedDate else s.lastDate })
      { name := showDisplayName sid e, count := 1
        firstDate := e.watchedDate, lastDate := e.watchedDate }

/-- The `fastestBinge` report for one show. -/
structure Binge where
  name : String
  days : ℕ
  episodes : ℕ
deriving Repr, DecidableEq

/-- `Math.max(1, Math.ceil((last - first) / MS_PER_DAY))`: days spanned by a
show's watched episodes, at least 1. -/
def bingeDays (s : ShowAgg) : ℕ :=
  max 1 ((s.lastDate - s.firstDate + (MS_PER_DAY - 1)) / MS_PER_DAY)

/-- The binge rate `episodes / days` a candidate is compared by. -/
def bingeRate (b : Binge) : ℚ := (b.episodes : ℚ) / b.days

/-- `fastestBinge`: fold over the series aggregates (in ascending series-id
order, the object iteration order), keeping shows with at least 3 episodes
and replacing the champion only on a strictly greater rate. -/
def fastestBinge (episodes : List WatchedEpisode) : Option Binge :=
  (showIds episodes).foldl
    (fun best sid =>
      match showAggOf episodes sid with
      | none => best
      | some sh =>
        if 3 ≤ sh.count then
          let cand : Binge := { name := sh.name, days := bingeDays sh, episodes := sh.count }
          match best with
          | none => some cand
          | some b => if bingeRate cand > bingeRate b then some cand else best
        else best)
    none

/-- `movieIdCounts`: occurrences of each `movieId`, in insertion order. -/
def movieIdCounts (movies : List WatchedMovie) : List (ℕ × ℕ) :=
  countByKeys (movies.map (·.movieId))

/-- `rewatchCount`:
`Object.values(movieIdCounts).filter(c => c > 1).reduce((sum, c) => sum + c - 1, 0)`. -/
def rewatchCount (movies : List WatchedMovie) : ℕ :=
  (((movieIdCounts movies).map Prod.snd).filter fun c => 1 < c).foldl
    (fun sum c => sum + c - 1) 0

/-- The dated entries' timestamps, movies first then episodes (`allDates`). -/
def allDates (movies : List WatchedMovie) (episodes : List WatchedEpisode) : List ℕ :=
  movies.map (·.watchedDate) ++ episodes.map (·.watchedDate)

/-- The genre tags of all entries, movies first then episodes. -/
def allGenres (movies : List WatchedMovie) (episodes : List WatchedEpisode) : List String :=
  movies.flatMap (·.genres) ++ episodes.flatMap (·.genres)

/-- `topGenres`: genre counts sorted by count descending (stable) and cut to
the first 10. -/
def topGenres (movies : List WatchedMovie) (episodes : List WatchedEpisode) :
    List (String × ℕ) :=
  ((countByKeys (allGenres movies episodes)).insertionSort fun a b => b.2 ≤ a.2).take 10

/-- The display title of an episode log entry:
``${e.seriesName} S${e.seasonNumber}E${e.episodeNumber}`` (a missing series
name prints as `"undefined"`). -/
def episodeLogTitle (e : WatchedEpisode) : String :=
  let n := e.seriesName.getD "undefined"
  let s := toString e.seasonNumber
  let ep := toString e.episodeNumber
  s!"{n} S{s}E{ep}"

/-- The aggregator's output report. Presentation-only fields are omitted (see
the module docstring); `personalityType` is the personality label. -/
structure WrappedStats where
  totalMovies : ℕ
  totalEpisodes : ℕ
  totalHoursWatched : ℚ
  longestMovie : Option (String × ℕ)
  busiestDay : Option (ℕ × ℕ)
  busiestMonth : Option (String × ℕ)
  avgPerWeek : ℚ
  avgMovieRating : ℚ
  avgEpisodeRating : ℚ
  ratingDistribution : List (ℚ × ℕ)
  topGenres : List (String × ℕ)
  longestStreak : ℕ
  busiestDayOfWeek : Option (String × ℕ)
  firstLog : Option (String × ℕ)
  lastLog : Option (String × ℕ)
  monthlyActivity : List ((ℕ × ℕ) × ℕ)
  uniqueShowsWatched : ℕ
  fastestBinge : Option Binge
  totalSeasonsCompleted : ℕ
  decadeBreakdown : List (ℕ × ℕ)
  oldestMovie : Option (String × ℕ)
  newestMovie : Option (String × ℕ)
  avgMovieRuntime : ℤ
  rewatchCount : ℕ
  totalLikes : ℕ
  totalFavorites : ℕ
  likeRatio : ℤ
  totalReviews : ℕ
  avgReviewLength : ℤ
  topTags : List (String × ℕ)
  personalityType : String
  totalEntries : ℕ

/-- `totalHoursWatched = Math.round((movieHours + episodeHours) * 10) / 10`. -/
def totalHours (movies : List WatchedMovie) (episodes : List WatchedEpisode) : ℚ :=
  let movieHours : ℚ := ((movies.map (·.runtime)).sum : ℚ) / 60
  let episodeHours : ℚ := ((episodes.map (·.runtime)).sum : ℚ) / 60
  (jsRound ((movieHours + episodeHours) * 10) : ℚ) / 10

/-- `longestMovie`: `movies.reduce((prev, curr) => curr.runtime > prev.runtime
? curr : prev)`, keeping the first on ties, `null` on an empty list. -/
def longestMovie (movies : List WatchedMovie) : Option (String × ℕ) :=
  match movies with
  | [] => none
  | m :: rest =>
    let best := rest.foldl (fun prev curr => if curr.runtime > prev.runtime then curr else prev) m
    some (best.title, best.runtime)

/-- `busiestDay`: the first calendar day attaining the maximal entry count. -/
def busiestDay (dates : List ℕ) : Option (ℕ × ℕ) :=
  topEntry (countByKeys (dates.map getDateKey))

/-- `busiestMonth`: the first year-month attaining the maximal entry count,
rendered by `getMonthName`. -/
def busiestMonth (dates : List ℕ) : Option (String × ℕ) :=
  (topEntry (countByKeys (dates.map getMonthKey))).map fun p => (getMonthName p.1, p.2)

/-- `avgPerWeek`: dated entries per week spanned (at least one week), rounded
to one decimal; `0` with fewer than two dated entries. -/
def avgPerWeek (dates : List ℕ) : ℚ :=
  let sortedDates := dates.insertionSort (· ≤ ·)
  if 2 ≤ sortedDates.length then
    let first := sortedDates.headD 0
    let last := sortedDates.getLastD 0
    let weeks : ℚ := max 1 (((last : ℚ) - first) / (1000 * 60 * 60 * 24 * 7))
    (jsRound (((dates.length : ℚ) / weeks) * 10) : ℚ) / 10
  else 0

/-- Mean of a list of ratings rounded to one decimal, `0` on the empty list
(the shared shape of `avgMovieRating` and `avgEpisodeRating`). -/
def avgRounded (ratings : List ℚ) : ℚ :=
  if ratings.length > 0 then
    (jsRound ((ratings.sum / ratings.length) * 10) : ℚ) / 10
  else 0

/-- `avgMovieRating`: over movies with `rating > 0`. -/
def avgMovieRating (movies : List WatchedMovie) : ℚ :=
  avgRounded ((movies.filter fun m => 0 < m.rating).map (·.rating))

/-- `avgEpisodeRating`: over episodes with `rating > 0`. -/
def avgEpisodeRating (episodes : List WatchedEpisode) : ℚ :=
  avgRounded ((episodes.filter fun e => 0 < e.rating).map (·.rating))

/-- `busiestDayOfWeek`: the first weekday attaining the maximal entry count. -/
def busiestDayOfWeek (dates : List ℕ) : Option (String × ℕ) :=
  topEntry (countByKeys (dates.map getDayOfWeek))

/-- `allEntries` of the first/last-log block: display title and date of every
entry, sorted by date ascending (stable). -/
def sortedLogEntries (movies : List WatchedMovie) (episodes : List WatchedEpisode) :
    List (String × ℕ) :=
  (movies.map (fun m => (m.title, m.watchedDate))
      ++ episodes.map fun e => (episodeLogTitle e, e.watchedDate)).insertionSort
    fun a b => a.2 ≤ b.2

/-- `monthlyActivity`: entry counts keyed by year-month, sparse. -/
def monthlyActivity (dates : List ℕ) : List ((ℕ × ℕ) × ℕ) :=
  countByKeys (dates.map getMonthKey)

/-- `decadeBreakdown` over movies with a parseable release year. -/
def decadeBreakdown (movies : List WatchedMovie) : List (ℕ × ℕ) :=
  countByKeys ((movies.filterMap (·.releaseYear)).map getDecade)

/-- `oldestMovie`: first movie attaining the minimal release year (strict
comparison keeps the first encountered). -/
def oldestMovie (movies : List WatchedMovie) : Option (String × ℕ) :=
  (movies.filterMap fun m => m.releaseYear.map fun y => (m.title, y)).foldl
    (fun best p =>
      match best with
      | none => some p
      | some b => if p.2 < b.2 then some p else best)
    none

/-- `newestMovie`: first movie attaining the maximal release year. -/
def newestMovie (movies : List WatchedMovie) : Option (String × ℕ) :=
  (movies.filterMap fun m => m.releaseYear.map fun y => (m.title, y)).foldl
    (fun best p =>
      match best with
      | none => some p
      | some b => if p.2 > b.2 then some p else best)
    none

/-- `avgMovieRuntime`: rounded mean runtime over movies with `runtime > 0`. -/
def avgMovieRuntime (movies : List WatchedMovie) : ℤ :=
  let movieRuntimes := (movies.filter fun m => 0 < m.runtime).map (·.runtime)
  if movieRuntimes.length > 0 then
    jsRound ((movieRuntimes.sum : ℚ) / movieRuntimes.length)
  else 0

/-- `totalLikes`: episodes with the `liked` flag. -/
def totalLikes (episodes : List WatchedEpisode) : ℕ :=
  (episodes.filter (·.liked)).length

/-- `likeRatio`: `Math.round((totalLikes / totalEntries) * 100)`, `0` when
there are no entries. -/
def likeRatio (movies : List WatchedMovie) (episodes : List WatchedEpisode) : ℤ :=
  let totalEntries := movies.length + episodes.length
  if totalEntries > 0 then
    jsRound (((totalLikes episodes : ℚ) / totalEntries) * 100)
  else 0

/-- `allReviews`: episodes whose review is present and nonempty after
trimming. -/
def reviewedEpisodes (episodes : List WatchedEpisode) : List WatchedEpisode :=
  episodes.filter fun e => (e.review.getD "").trim ≠ ""

/-- `avgReviewLength`: rounded mean review character length. -/
def avgReviewLength (episodes : List WatchedEpisode) : ℤ :=
  let allReviews := reviewedEpisodes episodes
  if allReviews.length > 0 then
    jsRound (((allReviews.map fun e => (e.review.getD "").length).sum : ℚ) / allReviews.length)
  else 0

/-- `topTags`: tag counts sorted by count descending (stable), first 10. -/
def topTags (episodes : List WatchedEpisode) : List (String × ℕ) :=
  ((countByKeys (episodes.flatMap (·.tags))).insertionSort fun a b => b.2 ≤ a.2).take 10

/-- `StatsService.computeWrapped`, as a pure function of the two snapshot
collections and the two favorite collections (of which only the lengths are
read). Each field is the source's local of the same name. -/
def computeWrapped (movies : List WatchedMovie) (episodes : List WatchedEpisode)
    (favoriteMovies : List ℕ) (favoriteEpisodes : List ℕ) : WrappedStats :=
  let dates := allDates movies episodes
  let genres := topGenres movies episodes
  { totalMovies := movies.length
    totalEpisodes := episodes.length
    totalHoursWatched := totalHours movies episodes
    longestMovie := longestMovie movies
    busiestDay := busiestDay dates
    busiestMonth := busiestMonth dates
    avgPerWeek := avgPerWeek dates
    avgMovieRating := avgMovieRating movies
    avgEpisodeRating := avgEpisodeRating episodes
    ratingDistribution := ratingDistribution movies episodes
    topGenres := genres
    longestStreak := computeStreak dates
    busiestDayOfWeek := busiestDayOfWeek dates
    firstLog := (sortedLogEntries movies episodes).head?
    lastLog := (sortedLogEntries movies episodes).getLast?
    monthlyActivity := monthlyActivity dates
    uniqueShowsWatched := (showIds episodes).length
    fastestBinge := fastestBinge episodes
    totalSeasonsCompleted := ((episodes.map fun e => (e.seriesId, e.seasonNumber)).dedup).length
    decadeBreakdown := decadeBreakdown movies
    oldestMovie := oldestMovie movies
    newestMovie := newestMovie movies
    avgMovieRuntime := avgMovieRuntime movies
    rewatchCount := rewatchCount movies
    totalLikes := totalLikes episodes
    totalFavorites := favoriteMovies.length + favoriteEpisodes.length
    likeRatio := likeRatio movies episodes
    totalReviews := (reviewedEpisodes episodes).length
    avgReviewLength := avgReviewLength episodes
    topTags := topTags episodes
    personalityType := determinePersonality genres (totalHours movies episodes) movies episodes
    totalEntries := movies.length + episodes.length }

/-! ### Specification-side definitions

These follow the wording of the specification (not the source); theorems
below compare them with the source-side definitions above. -/

/-- The combined average rating as claim C1 describes it: each kind averaged
over its rated entries only (rating `0` meaning unrated is excluded), movie
ratings halved onto the unified 5-point scale, the two averages combined the
way the source combines its two averages (halved when both kinds
contribute). -/
def specCombinedAvg5 (movies : List WatchedMovie) (episodes : List WatchedEpisode) : ℚ :=
  let mr := (movies.filter fun m => 0 < m.rating).map fun m => m.rating / 2
  let er := (episodes.filter fun e => 0 < e.rating).map (·.rating)
  let mAvg : ℚ := if mr.length > 0 then mr.sum / mr.length else 0
  let eAvg : ℚ := if er.length > 0 then er.sum / er.length else 0
  (mAvg + eAvg) / (if mr.length > 0 ∧ er.length > 0 then 2 else 1)

/-- The set of unique watch days of a list of timestamps. -/
def watchDays (dates : List ℕ) : List ℕ := (dates.map getDateKey).dedup

/-- `consecutiveRun days n`: some run of `n` consecutive calendar days starts
at a watch day and every day of the run is a watch day. -/
def consecutiveRun (days : List ℕ) (n : ℕ) : Prop :=
  ∃ d ∈ days, ∀ k < n, d + k ∈ days

instance (days : List ℕ) (n : ℕ) : Decidable (consecutiveRun days n) := by
  unfold consecutiveRun; infer_instance

/-- The longest streak as the specification defines it: the greatest length
of a run of consecutive calendar days each containing at least one entry
(such a run has pairwise distinct days, so its length is bounded by the
number of unique watch days). -/
def specLongestStreak (dates : List ℕ) : ℕ :=
  Nat.findGreatest (consecutiveRun (watchDays dates)) (watchDays dates).length

/-- The rewatch count as the specification defines it: the sum, over movie
identifiers occurring more than once, of (occurrence count − 1). -/
def specRewatchCount (movies : List WatchedMovie) : ℕ :=
  let ids := movies.map (·.movieId)
  ((ids.dedup.filter fun i => 1 < ids.count i).map fun i => ids.count i - 1).sum

/-! ### Proof-side reference definitions -/

/-- Reference form of the streak scan: `bestRun prev curS rest` is the final
maximum streak when the current run ends at `prev` with length `curS` and
`rest` remains, with no running maximum accumulator. -/
def bestRun : ℕ → ℕ → List ℕ → ℕ
  | _, curS, [] => curS
  | prev, curS, d :: rest =>
    if d - prev = 1 then bestRun d (curS + 1) rest
    else max curS (bestRun d 1 rest)

/-- The streak scan over an already sorted, deduplicated day list. -/
def scanStreak : List ℕ → ℕ
  | [] => 0
  | d :: rest => bestRun d 1 rest

/-- First-match lookup in an association list, `0` when absent (the value of
`rec[k] || 0` for a JavaScript count record). -/
def lookup0 {κ : Type} [DecidableEq κ] : List (κ × ℕ) → κ → ℕ
  | [], _ => 0
  | p :: rest, k => if p.1 = k then p.2 else lookup0 rest k

/-- The candidate selection step of `fastestBinge`, isolated: keep the
challenger only on a strictly greater rate. -/
def bingeStep (best : Option Binge) (c : Binge) : Option Binge :=
  match best with
  | none => some c
  | some b => if bingeRate c > bingeRate b then some c else best

/-- The qualifying binge candidates, in the order `fastestBinge` visits
them: series with at least 3 watched episodes, in ascending series-id
order. -/
def qualifyingBinges (episodes : List WatchedEpisode) : List Binge :=
  (showIds episodes).filterMap fun sid =>
    match showAggOf episodes sid with
    | none => none
    | some sh =>
      if 3 ≤ sh.count then some { name := sh.name, days := bingeDays sh, episodes := sh.count }
      else none

/-! ### Example inputs -/

/-- A movie record with neutral fields, to be specialized per example. -/
def baseMovie : WatchedMovie :=
  { movieId := 0, title := "M", rating := 0, watchedDate := 0, runtime := 0,
    releaseYear := none, genres := [], review := none }

/-- An episode record with neutral fields, to be specialized per example. -/
def baseEpisode : WatchedEpisode :=
  { episodeId := 0, seriesId := 0, seriesName := none, seasonNumber := 1,
    episodeNumber := 1, rating := 0, watchedDate := 0, liked := false,
    review := none, tags := [], runtime := 0, genres := [] }

/-- Eleven movies, three rated 9/10 and eight unrated: on the unified
5-point scale with unrated entries excluded the combined average is 4.5,
while the source's `combinedAvg` is `27/11 < 2.5`. -/
def criticCexMovies : List WatchedMovie :=
  ((List.range 3).map fun i => { baseMovie with movieId := i, rating := 9 })
    ++ ((List.range 8).map fun i => { baseMovie with movieId := 3 + i })

/-- One episode carrying six distinct genres: satisfies both the Binger and
the Explorer conditions together with an empty movie list. -/
def bingerEpisode : WatchedEpisode :=
  { baseEpisode with
    seriesId := 1
    seriesName := some "S"
    genres := ["a", "b", "c", "d", "e", "f"] }

/-- A movie rated 8/10. -/
def movieRated8 : WatchedMovie := { baseMovie with rating := 8 }

/-- An episode rated 4/5. -/
def episodeRated4 : WatchedEpisode := { baseEpisode with rating := 4 }

/-- A movie rated 7/10 (normalizes to the half-step bucket 3.5). -/
def movieRated7 : WatchedMovie := { baseMovie with movieId := 7, rating := 7 }

/-- Three entries of one movie and one entry each of two others: two
rewatches in total. -/
def rewatchExampleMovies : List WatchedMovie :=
  [{ baseMovie with movieId := 1 }, { baseMovie with movieId := 1 },
    { baseMovie with movieId := 1 }, { baseMovie with movieId := 2 },
    { baseMovie with movieId := 3 }]

/-- Show A: 10 episodes spanning 10 days (binge rate 1.0 per day). -/
def showAEpisodes : List WatchedEpisode :=
  ((List.range 9).map fun k =>
    { baseEpisode with
      seriesId := 1
      seriesName := some "A"
      episodeId := k
      episodeNumber := k + 1
      watchedDate := k * MS_PER_DAY })
    ++ [{ baseEpisode with
      seriesId := 1
      seriesName := some "A"
      episodeId := 9
      episodeNumber := 10
      watchedDate := 10 * MS_PER_DAY }]

/-- Show B: 5 episodes spanning 2 days (binge rate 2.5 per day). -/
def showBEpisodes : List WatchedEpisode :=
  (List.range 5).map fun k =>
    { baseEpisode with
      seriesId := 2
      seriesName := some "B"
      episodeId := 100 + k
      episodeNumber := k + 1
      watchedDate := (20 + k / 2) * MS_PER_DAY }

/-- The two shows of the binge-rate example together. -/
def bingeExampleEpisodes : List WatchedEpisode := showAEpisodes ++ showBEpisodes

/-- Four episodes over two series with two episodes each: no series
qualifies for a binge. -/
def smallSeriesEpisodes : List WatchedEpisode :=
  [{ baseEpisode with seriesId := 1, episodeId := 1 },
    { baseEpisode with seriesId := 1, episodeId := 2 },
    { baseEpisode with seriesId := 2, episodeId := 3 },
    { baseEpisode with seriesId := 2, episodeId := 4 }]

/-- Entries on days 1, 2, 3, 5, 6, 7, 8 of one month (day 4 missing). -/
def streakExampleMovies : List WatchedMovie :=
  [1, 2, 3, 5, 6, 7, 8].map fun k =>
    { baseMovie with movieId := k, watchedDate := k * MS_PER_DAY }

/-! ### Theorems -/

/-- C2: on empty inputs the aggregator totally computes a report with
`totalEntries = 0`, the Newcomer personality label (the source renders it as
the string `The Newcomer`), every numeric field `0`, and every optional
single-item field `none`. -/
theorem computeWrapped_empty :
    (computeWrapped [] [] [] []).totalEntries = 0 ∧
    (computeWrapped [] [] [] []).personalityType = "The Newcomer" ∧
    (computeWrapped [] [] [] []).totalMovies = 0 ∧
    (computeWrapped [] [] [] []).totalEpisodes = 0 ∧
    (computeWrapped [] [] [] []).totalHoursWatched = 0 ∧
    (computeWrapped [] [] [] []).avgPerWeek = 0 ∧
    (computeWrapped [] [] [] []).avgMovieRating = 0 ∧
    (computeWrapped [] [] [] []).avgEpisodeRating = 0 ∧
    (computeWrapped [] [] [] []).longestStreak = 0 ∧
    (computeWrapped [] [] [] []).uniqueShowsWatched = 0 ∧
    (computeWrapped [] [] [] []).totalSeasonsCompleted = 0 ∧
    (computeWrapped [] [] [] []).avgMovieRuntime = 0 ∧
    (computeWrapped [] [] [] []).rewatchCount = 0 ∧
    (computeWrapped [] [] [] []).totalLikes = 0 ∧
    (computeWrapped [] [] [] []).totalFavorites = 0 ∧
    (computeWrapped [] [] [] []).likeRatio = 0 ∧
    (computeWrapped [] [] [] []).totalReviews = 0 ∧
    (computeWrapped [] [] [] []).avgReviewLength = 0 ∧
    (computeWrapped [] [] [] []).longestMovie = none ∧
    (computeWrapped [] [] [] []).busiestDay = none ∧
    (computeWrapped [] [] [] []).busiestMonth = none ∧
    (computeWrapped [] [] [] []).busiestDayOfWeek = none ∧
    (computeWrapped [] [] [] []).firstLog = none ∧
    (computeWrapped [] [] [] []).lastLog = none ∧
    (computeWrapped [] [] [] []).fastestBinge = none ∧
    (computeWrapped [] [] [] []).oldestMovie = none ∧
    (computeWrapped [] [] [] []).newestMovie = none := by
  decide

/-- C3: the personality rules are evaluated in their fixed priority order,
so every input satisfying both the Binger condition (episode count above
three times the movie count) and the Explorer condition (more than 5
distinct genres) classifies as the Binger. -/
theorem personality_binger_priority (movies : List WatchedMovie)
    (episodes : List WatchedEpisode) (favM favE : List ℕ)
    (hBinger : episodes.length > movies.length * 3)
    (hExplorer : 5 < ((allGenres movies episodes).dedup).length) :
    (computeWrapped movies episodes favM favE).personalityType = "The Binger" := by
  show determinePersonality _ _ movies episodes = _
  unfold determinePersonality
  rw [if_neg (by omega), if_pos hBinger]

/-- Witness for C3 at a concrete input satisfying both conditions. -/
theorem personality_binger_priority_witness :
    [bingerEpisode].length > ([] : List WatchedMovie).length * 3 ∧
    5 < ((allGenres [] [bingerEpisode]).dedup).length ∧
    (computeWrapped [] [bingerEpisode] [] []).personalityType = "The Binger" :=
  ⟨by decide, by decide,
    personality_binger_priority [] [bingerEpisode] [] [] (by decide) (by decide)⟩

/-- C1 (amended): past the Newcomer and Binger rules, with more than 10
entries, the classifier compares the source's `combinedAvg` — computed on
the raw rating scales with unrated (0) ratings included, the two per-kind
means halved only when both kinds are present — against 2.5 and 4.0. -/
theorem personality_critic_enthusiast (movies : List WatchedMovie)
    (episodes : List WatchedEpisode) (favM favE : List ℕ)
    (hTotal : 10 < movies.length + episodes.length)
    (hNotBinger : ¬ episodes.length > movies.length * 3) :
    (codeCombinedAvg movies episodes < 5 / 2 →
      (computeWrapped movies episodes favM favE).personalityType = "The Critic") ∧
    (4 < codeCombinedAvg movies episodes →
      (computeWrapped movies episodes favM favE).personalityType = "The Enthusiast") := by
  constructor
  · intro h
    show determinePersonality _ _ movies episodes = _
    unfold determinePersonality
    rw [if_neg (by omega), if_neg hNotBinger, if_pos ⟨h, by omega⟩]
  · intro h
    show determinePersonality _ _ movies episodes = _
    unfold determinePersonality
    rw [if_neg (by omega), if_neg hNotBinger,
      if_neg (by rintro ⟨h25, -⟩; linarith), if_pos ⟨h, by omega⟩]

/-- Witness for the amended C1 at a concrete input: eleven movies all rated
1/10 give `combinedAvg = 1 < 2.5`, and the classifier answers the Critic. -/
theorem personality_critic_enthusiast_witness :
    10 < ((List.range 11).map fun i => { baseMovie with movieId := i, rating := 1 }).length ∧
    codeCombinedAvg ((List.range 11).map fun i => { baseMovie with movieId := i, rating := 1 }) [] < 5 / 2 ∧
    (computeWrapped ((List.range 11).map fun i => { baseMovie with movieId := i, rating := 1 }) [] [] []).personalityType = "The Critic" :=
  ⟨by decide, by decide,
    (personality_critic_enthusiast _ [] [] [] (by decide) (by decide)).1 (by decide)⟩

/-- Counterexample to C1 as stated: for `criticCexMovies` (more than 10
entries, the Binger rule not matching) the unified 5-point average with
unrated entries excluded is 4.5, above 4.0, so the claim predicts the
Enthusiast — but the source classifies the input as the Critic, because its
`combinedAvg` keeps the raw 1–10 movie scale and counts unrated entries. -/
theorem personality_unified_scale_cex :
    10 < criticCexMovies.length + ([] : List WatchedEpisode).length ∧
    ¬ (([] : List WatchedEpisode).length > criticCexMovies.length * 3) ∧
    4 < specCombinedAvg5 criticCexMovies [] ∧
    (computeWrapped criticCexMovies [] [] []).personalityType = "The Critic" ∧
    (computeWrapped criticCexMovies [] [] []).personalityType ≠ "The Enthusiast" := by
  refine ⟨by decide, by decide, by decide, by decide, by decide⟩

/-! ### Association-list count records -/

section CountByKeys

variable {κ : Type} [DecidableEq κ]

theorem lookup0_of_forall_ne {acc : List (κ × ℕ)} {k : κ}
    (h : ∀ p ∈ acc, p.1 ≠ k) : lookup0 acc k = 0 := by
  induction acc with
  | nil => rfl
  | cons q rest ih =>
    have hq : q.1 ≠ k := h q (List.mem_cons_self q rest)
    simp only [lookup0, if_neg hq]
    exact ih fun p hp => h p (List.mem_cons_of_mem q hp)

theorem fst_incKey (acc : List (κ × ℕ)) (k : κ) :
    (incKey acc k).map Prod.fst =
      if ∃ p ∈ acc, p.1 = k then acc.map Prod.fst else acc.map Prod.fst ++ [k] := by
  unfold incKey
  split
  · rw [List.map_map]
    refine List.map_congr_left fun p _ => ?_
    by_cases h : p.1 = k <;> simp [h]
  · simp

theorem lookup0_mapInc_ne {acc : List (κ × ℕ)} {k j : κ} (hj : j ≠ k) :
    lookup0 (acc.map fun p => if p.1 = k then (p.1, p.2 + 1) else p) j = lookup0 acc j := by
  induction acc with
  | nil => rfl
  | cons q rest ih =>
    rw [List.map_cons]
    by_cases hqk : q.1 = k
    · rw [if_pos hqk]
      have hq1j : q.1 ≠ j := fun h => hj (h ▸ hqk)
      simp only [lookup0, if_neg hq1j]
      exact ih
    · rw [if_neg hqk]
      simp only [lookup0]
      by_cases hq1j : q.1 = j
      · rw [if_pos hq1j, if_pos hq1j]
      · rw [if_neg hq1j, if_neg hq1j]
        exact ih

theorem lookup0_mapInc_eq {acc : List (κ × ℕ)} {k : κ}
    (hpres : ∃ p ∈ acc, p.1 = k) :
    lookup0 (acc.map fun p => if p.1 = k then (p.1, p.2 + 1) else p) k = lookup0 acc k + 1 := by
  induction acc with
  | nil => simp at hpres
  | cons q rest ih =>
    rw [List.map_cons]
    by_cases hqk : q.1 = k
    · rw [if_pos hqk]
      simp only [lookup0, if_pos hqk]
    · rw [if_neg hqk]
      simp only [lookup0, if_neg hqk]
      refine ih ?_
      rcases hpres with ⟨p, hp, hpk⟩
      rcases List.mem_cons.1 hp with rfl | hp'
      · exact absurd hpk hqk
      · exact ⟨p, hp', hpk⟩

theorem lookup0_append_sing_ne {acc : List (κ × ℕ)} {k j : κ} {v : ℕ} (hj : j ≠ k) :
    lookup0 (acc ++ [(k, v)]) j = lookup0 acc j := by
  induction acc with
  | nil => simp [lookup0, if_neg (Ne.symm hj)]
  | cons q rest ih =>
    simp only [List.cons_append, lookup0]
    split
    · rfl
    · exact ih

theorem lookup0_append_sing_eq {acc : List (κ × ℕ)} {k : κ} {v : ℕ}
    (habs : ∀ p ∈ acc, p.1 ≠ k) :
    lookup0 (acc ++ [(k, v)]) k = v := by
  induction acc with
  | nil => simp [lookup0]
  | cons q rest ih =>
    have hq : q.1 ≠ k := habs q (List.mem_cons_self q rest)
    simp only [List.cons_append, lookup0, if_neg hq]
    exact ih fun p hp => habs p (List.mem_cons_of_mem q hp)

theorem lookup0_incKey (acc : List (κ × ℕ)) (k j : κ) :
    lookup0 (incKey acc k) j = lookup0 acc j + if j = k then 1 else 0 := by
  unfold incKey
  by_cases hpres : ∃ p ∈ acc, p.1 = k
  · rw [if_pos hpres]
    by_cases hj : j = k
    · subst hj
      rw [if_pos rfl, lookup0_mapInc_eq hpres]
    · rw [if_neg hj, lookup0_mapInc_ne hj, Nat.add_zero]
  · rw [if_neg hpres]
    push_neg at hpres
    by_cases hj : j = k
    · subst hj
      rw [if_pos rfl, lookup0_append_sing_eq hpres, lookup0_of_forall_ne hpres]
    · rw [if_neg hj, lookup0_append_sing_ne hj, Nat.add_zero]

theorem lookup0_foldl_incKey (keys : List κ) (acc : List (κ × ℕ)) (k : κ) :
    lookup0 (keys.foldl incKey acc) k = lookup0 acc k + keys.count k := by
  induction keys generalizing acc with
  | nil => simp
  | cons k₀ rest ih =>
    rw [List.foldl_cons, ih, lookup0_incKey, List.count_cons]
    by_cases h : k = k₀
    · subst h
      rw [if_pos rfl, if_pos (beq_self_eq_true k)]
      omega
    · have : (k₀ == k) = false := by
        simpa using Ne.symm h
      simp only [this, if_neg h, Bool.false_eq_true, if_false]
      omega

theorem mem_fst_foldl_incKey (keys : List κ) (acc : List (κ × ℕ)) (j : κ) :
    (j ∈ (keys.foldl incKey acc).map Prod.fst) ↔ j ∈ acc.map Prod.fst ∨ j ∈ keys := by
  induction keys generalizing acc with
  | nil => simp
  | cons k₀ rest ih =>
    rw [List.foldl_cons, ih, fst_incKey]
    split
    case isTrue hpres =>
      have hk₀ : k₀ ∈ acc.map Prod.fst := by
        rcases hpres with ⟨p, hp, hpk⟩
        exact hpk ▸ List.mem_map_of_mem Prod.fst hp
      simp only [List.mem_cons]
      constructor
      · rintro (h | h)
        · exact Or.inl h
        · exact Or.inr (Or.inr h)
      · rintro (h | rfl | h)
        · exact Or.inl h
        · exact Or.inl hk₀
        · exact Or.inr h
    case isFalse habs =>
      simp only [List.mem_append, List.mem_singleton, List.mem_cons]
      tauto

theorem nodup_fst_foldl_incKey (keys : List κ) (acc : List (κ × ℕ))
    (h : (acc.map Prod.fst).Nodup) : ((keys.foldl incKey acc).map Prod.fst).Nodup := by
  induction keys generalizing acc with
  | nil => exact h
  | cons k₀ rest ih =>
    rw [List.foldl_cons]
    refine ih _ ?_
    rw [fst_incKey]
    split
    · exact h
    case isFalse habs =>
      have hk₀ : k₀ ∉ acc.map Prod.fst := by
        intro hk
        rcases List.mem_map.1 hk with ⟨p, hp, hpk⟩
        exact habs ⟨p, hp, hpk⟩
      simp [List.nodup_append, h, hk₀]

theorem lookup0_countByKeys (keys : List κ) (k : κ) :
    lookup0 (countByKeys keys) k = keys.count k := by
  simpa [countByKeys, lookup0] using lookup0_foldl_incKey keys [] k

theorem mem_fst_countByKeys (keys : List κ) (j : κ) :
    j ∈ (countByKeys keys).map Prod.fst ↔ j ∈ keys := by
  simpa [countByKeys] using mem_fst_foldl_incKey keys [] j

theorem nodup_fst_countByKeys (keys : List κ) : ((countByKeys keys).map Prod.fst).Nodup :=
  nodup_fst_foldl_incKey keys [] (by simp)

theorem lookup0_eq_snd {l : List (κ × ℕ)} (h : (l.map Prod.fst).Nodup)
    {p : κ × ℕ} (hp : p ∈ l) : lookup0 l p.1 = p.2 := by
  induction l with
  | nil => cases hp
  | cons q rest ih =>
    rw [List.map_cons, List.nodup_cons] at h
    rcases List.mem_cons.1 hp with rfl | hp'
    · simp [lookup0]
    · have hq : q.1 ≠ p.1 := by
        intro he
        exact h.1 (he ▸ List.mem_map_of_mem Prod.fst hp')
      simp only [lookup0, if_neg hq]
      exact ih h.2 hp'

theorem snd_countByKeys (keys : List κ) {p : κ × ℕ} (hp : p ∈ countByKeys keys) :
    p.2 = keys.count p.1 := by
  rw [← lookup0_eq_snd (nodup_fst_countByKeys keys) hp, lookup0_countByKeys]

theorem fst_countByKeys_perm_dedup (keys : List κ) :
    ((countByKeys keys).map Prod.fst).Perm keys.dedup := by
  refine List.Subperm.antisymm ?_ ?_
  · exact List.subperm_of_subset (nodup_fst_countByKeys keys)
      fun j hj => List.mem_dedup.2 ((mem_fst_countByKeys keys j).1 hj)
  · exact List.subperm_of_subset (List.nodup_dedup keys)
      fun j hj => (mem_fst_countByKeys keys j).2 (List.mem_dedup.1 hj)

end CountByKeys

/-! ### C8: like ratio bounds -/

/-- C8: `likeRatio` is an integer percentage with `0 ≤ likeRatio ≤ 100` for
every input, and it is `0` (not a division-by-zero artifact) when
`totalEntries = 0`. -/
theorem likeRatio_bounds (movies : List WatchedMovie) (episodes : List WatchedEpisode)
    (favM favE : List ℕ) :
    0 ≤ (computeWrapped movies episodes favM favE).likeRatio ∧
    (computeWrapped movies episodes favM favE).likeRatio ≤ 100 ∧
    ((computeWrapped movies episodes favM favE).totalEntries = 0 →
      (computeWrapped movies episodes favM favE).likeRatio = 0) := by
  have hle : totalLikes episodes ≤ movies.length + episodes.length := by
    unfold totalLikes
    calc (episodes.filter (·.liked)).length
        ≤ episodes.length := List.length_filter_le _ _
      _ ≤ movies.length + episodes.length := Nat.le_add_left _ _
  show 0 ≤ likeRatio movies episodes ∧ likeRatio movies episodes ≤ 100 ∧
    (movies.length + episodes.length = 0 → likeRatio movies episodes = 0)
  simp only [likeRatio]
  by_cases h : movies.length + episodes.length > 0
  · rw [if_pos h]
    have hE : (0 : ℚ) < (movies.length + episodes.length : ℕ) := by exact_mod_cast h
    have hLE : (totalLikes episodes : ℚ) ≤ (movies.length + episodes.length : ℕ) := by
      exact_mod_cast hle
    have hq0 : (0 : ℚ) ≤ (totalLikes episodes : ℚ) / (movies.length + episodes.length : ℕ) * 100 := by
      positivity
    have hq100 : (totalLikes episodes : ℚ) / (movies.length + episodes.length : ℕ) * 100 ≤ 100 := by
      rw [div_mul_eq_mul_div, div_le_iff hE]
      nlinarith
    refine ⟨?_, ?_, ?_⟩
    · refine Int.le_floor.2 ?_
      push_cast
      push_cast at hq0
      linarith
    · calc jsRound ((totalLikes episodes : ℚ) / (movies.length + episodes.length : ℕ) * 100)
          ≤ jsRound ((100 : ℚ)) := Int.floor_le_floor (by linarith)
        _ = 100 := by decide
    · intro h0
      omega
  · rw [if_neg h]
    exact ⟨le_refl 0, by norm_num, fun _ => rfl⟩

/-- Witness for C8 at the empty input. -/
theorem likeRatio_bounds_witness :
    (computeWrapped [] [] [] []).likeRatio = 0 ∧
    0 ≤ (computeWrapped [] [] [] []).likeRatio :=
  ⟨(likeRatio_bounds [] [] [] []).2.2 (by decide), (likeRatio_bounds [] [] [] []).1⟩

/-! ### C5 and C9: the unified rating distribution -/

/-- C5: a rated movie and a rated episode whose normalized values coincide
land in the same bucket: a one-movie, one-episode input with coinciding
normalized ratings yields a single bucket holding both entries. A movie
rated 8/10 normalizes to `8/2 = 4`, the bucket of an episode rated 4. -/
theorem ratingDistribution_unified (m : WatchedMovie) (e : WatchedEpisode)
    (hm : 0 < m.rating) (he : 0 < e.rating)
    (hnorm : (jsRound (m.rating / 2 * 2) : ℚ) / 2 = e.rating) :
    (computeWrapped [m] [e] [] []).ratingDistribution = [(e.rating, 2)] := by
  show ratingDistribution [m] [e] = _
  unfold ratingDistribution movieBucket episodeBucket
  simp only [List.filterMap, if_pos hm, if_pos he, hnorm]
  simp [countByKeys, incKey, List.foldl]

/-- Witness for C5: the movie rated 8/10 and the episode rated 4/5 share the
bucket `4`, which counts both of them. -/
theorem ratingDistribution_unified_witness :
    0 < movieRated8.rating ∧ 0 < episodeRated4.rating ∧
    (jsRound (movieRated8.rating / 2 * 2) : ℚ) / 2 = (4 : ℚ) ∧
    (computeWrapped [movieRated8] [episodeRated4] [] []).ratingDistribution = [(4, 2)] :=
  ⟨by decide, by decide, by decide,
    ratingDistribution_unified movieRated8 episodeRated4 (by decide) (by decide) (by decide)⟩

/-- C9: rating-0 entries contribute nothing to the distribution. Under the
data-model invariant that a rated movie has rating at least 1, no bucket key
is 0; and when every rating is 0 the distribution is the empty map. -/
theorem ratingDistribution_no_zero (movies : List WatchedMovie) (episodes : List WatchedEpisode)
    (favM favE : List ℕ)
    (hm : ∀ m ∈ movies, 0 < m.rating → 1 ≤ m.rating) :
    (∀ p ∈ (computeWrapped movies episodes favM favE).ratingDistribution, p.1 ≠ 0) ∧
    ((∀ m ∈ movies, m.rating = 0) → (∀ e ∈ episodes, e.rating = 0) →
      (computeWrapped movies episodes favM favE).ratingDistribution = []) := by
  constructor
  · intro p hp
    have hp' : p ∈ ratingDistribution movies episodes := hp
    unfold ratingDistribution at hp'
    have hkey : p.1 ∈ movies.filterMap movieBucket ++ episodes.filterMap episodeBucket :=
      (mem_fst_countByKeys _ p.1).1 (List.mem_map_of_mem Prod.fst hp')
    rcases List.mem_append.1 hkey with hk | hk
    · rcases List.mem_filterMap.1 hk with ⟨mv, hmv, hb⟩
      unfold movieBucket at hb
      split at hb
      case isTrue hrat =>
        have heq : (jsRound (mv.rating / 2 * 2) : ℚ) / 2 = p.1 := Option.some.inj hb
        rw [← heq]
        have h1 : (1 : ℤ) ≤ jsRound (mv.rating / 2 * 2) := by
          unfold jsRound
          have h2 : mv.rating / 2 * 2 = mv.rating := by ring
          rw [h2]
          exact Int.le_floor.2 (by push_cast; linarith [hm mv hmv hrat])
        have : (0 : ℚ) < (jsRound (mv.rating / 2 * 2) : ℚ) / 2 := by
          have : (0 : ℚ) < (jsRound (mv.rating / 2 * 2) : ℚ) := by exact_mod_cast by omega
          positivity
        exact ne_of_gt this
      case isFalse => exact absurd hb (by simp)
    · rcases List.mem_filterMap.1 hk with ⟨ev, hev, hb⟩
      unfold episodeBucket at hb
      split at hb
      case isTrue hrat =>
        have heq : ev.rating = p.1 := Option.some.inj hb
        rw [← heq]
        exact ne_of_gt hrat
      case isFalse => exact absurd hb (by simp)
  · intro h0m h0e
    show ratingDistribution movies episodes = _
    unfold ratingDistribution
    have h1 : movies.filterMap movieBucket = [] :=
      List.filterMap_eq_nil_iff.2 fun mv hmv => by
        unfold movieBucket
        rw [h0m mv hmv]
        simp
    have h2 : episodes.filterMap episodeBucket = [] :=
      List.filterMap_eq_nil_iff.2 fun ev hev => by
        unfold episodeBucket
        rw [h0e ev hev]
        simp
    rw [h1, h2]
    rfl

/-- Witness for C9: a mixed rated/unrated input has no 0 bucket, and an
input whose two entries are all unrated has an empty distribution. -/
theorem ratingDistribution_no_zero_witness :
    (∀ p ∈ (computeWrapped [baseMovie, movieRated7] [baseEpisode] [] []).ratingDistribution,
      p.1 ≠ 0) ∧
    (computeWrapped [baseMovie] [baseEpisode] [] []).ratingDistribution = [] ∧
    (computeWrapped [baseMovie] [baseEpisode] [] []).totalEntries ≠ 0 :=
  ⟨(ratingDistribution_no_zero [baseMovie, movieRated7] [baseEpisode] [] [] (by decide)).1,
    (ratingDistribution_no_zero [baseMovie] [baseEpisode] [] [] (by decide)).2
      (by decide) (by decide),
    by decide⟩

/-! ### C6: rewatch count -/

theorem foldl_sub_one (l : List ℕ) (a : ℕ) (h : ∀ c ∈ l, 1 ≤ c) :
    l.foldl (fun s c => s + c - 1) a = a + (l.map fun c => c - 1).sum := by
  induction l generalizing a with
  | nil => simp
  | cons c rest ih =>
    rw [List.foldl_cons, ih _ fun x hx => h x (List.mem_cons_of_mem c hx)]
    have h1 := h c (List.mem_cons_self c rest)
    simp only [List.map_cons, List.sum_cons]
    omega

theorem rewatchCount_eq_spec (movies : List WatchedMovie) :
    rewatchCount movies = specRewatchCount movies := by
  unfold rewatchCount specRewatchCount movieIdCounts
  simp only []
  have hvals : (countByKeys (movies.map (·.movieId))).map Prod.snd
      = ((countByKeys (movies.map (·.movieId))).map Prod.fst).map
          fun k => (movies.map (·.movieId)).count k := by
    rw [List.map_map]
    exact List.map_congr_left fun p hp => snd_countByKeys _ hp
  rw [hvals, List.filter_map,
    foldl_sub_one _ 0 (fun c hc => by
      rcases List.mem_map.1 hc with ⟨k, hk, rfl⟩
      have := List.of_mem_filter hk
      simp only [Function.comp, decide_eq_true_eq] at this
      omega),
    List.map_map, Nat.zero_add]
  have hperm : (((countByKeys (movies.map (·.movieId))).map Prod.fst).filter
        ((fun c => decide (1 < c)) ∘ fun k => (movies.map (·.movieId)).count k)).Perm
      ((movies.map (·.movieId)).dedup.filter
        ((fun c => decide (1 < c)) ∘ fun k => (movies.map (·.movieId)).count k)) :=
    (fst_countByKeys_perm_dedup _).filter _
  have hsum := (hperm.map ((fun c => c - 1) ∘ fun k => (movies.map (·.movieId)).count k)).sum_eq
  rw [hsum]
  rfl

/-- C6: `rewatchCount` is the sum, over movie identifiers appearing more
than once, of (occurrence count − 1); three entries of one movie plus two
singleton movies give 2. -/
theorem rewatchCount_spec :
    (∀ (movies : List WatchedMovie) (episodes : List WatchedEpisode) (favM favE : List ℕ),
      (computeWrapped movies episodes favM favE).rewatchCount = specRewatchCount movies) ∧
    (computeWrapped rewatchExampleMovies [] [] []).rewatchCount = 2 := by
  constructor
  · intro movies episodes favM favE
    show rewatchCount movies = _
    exact rewatchCount_eq_spec movies
  · decide

/-! ### C7 and C10: fastest binge -/

theorem foldl_qualify (episodes : List WatchedEpisode) (ids : List ℕ) (acc : Option Binge) :
    ids.foldl
      (fun best sid =>
        match showAggOf episodes sid with
        | none => best
        | some sh =>
          if 3 ≤ sh.count then
            let cand : Binge := { name := sh.name, days := bingeDays sh, episodes := sh.count }
            match best with
            | none => some cand
            | some b => if bingeRate cand > bingeRate b then some cand else best
          else best)
      acc
      = ((ids.filterMap fun sid =>
          match showAggOf episodes sid with
          | none => none
          | some sh =>
            if 3 ≤ sh.count then
              some { name := sh.name, days := bingeDays sh, episodes := sh.count }
            else none)).foldl bingeStep acc := by
  induction ids generalizing acc with
  | nil => rfl
  | cons sid rest ih =>
    rw [List.foldl_cons, List.filterMap_cons]
    cases hf : showAggOf episodes sid with
    | none =>
      simp only [hf]
      exact ih acc
    | some sh =>
      by_cases h3 : 3 ≤ sh.count
      · simp only [hf, if_pos h3]
        rw [List.foldl_cons]
        exact ih _
      · simp only [hf, if_neg h3]
        exact ih acc

theorem fastestBinge_eq_foldl (episodes : List WatchedEpisode) :
    fastestBinge episodes = (qualifyingBinges episodes).foldl bingeStep none := by
  unfold fastestBinge qualifyingBinges
  exact foldl_qualify episodes (showIds episodes) none

theorem foldl_bingeStep_some (l : List Binge) (b : Binge) :
    ∃ b', l.foldl bingeStep (some b) = some b' ∧
      ∃ l₁ l₂, b :: l = l₁ ++ b' :: l₂ ∧
        (∀ x ∈ l₁, bingeRate x < bingeRate b') ∧
        (∀ x ∈ l₂, bingeRate x ≤ bingeRate b') := by
  induction l generalizing b with
  | nil => exact ⟨b, rfl, [], [], rfl, by simp, by simp⟩
  | cons c rest ih =>
    rw [List.foldl_cons]
    by_cases hc : bingeRate c > bingeRate b
    · have hstep0 : bingeStep (some b) c
          = if bingeRate c > bingeRate b then some c else some b := rfl
      have hstep : bingeStep (some b) c = some c := by
        rw [hstep0, if_pos hc]
      rw [hstep]
      obtain ⟨b', hb', l₁, l₂, hdecomp, hl₁, hl₂⟩ := ih c
      have hcb' : bingeRate c ≤ bingeRate b' := by
        rcases l₁ with _ | ⟨y, l₁'⟩
        · have : c = b' := by
            injection hdecomp
          rw [this]
        · have hy : c = y := by
            injection hdecomp
          exact le_of_lt (hy ▸ hl₁ y (List.mem_cons_self y l₁'))
      refine ⟨b', hb', b :: l₁, l₂, by rw [List.cons_append, ← hdecomp], ?_, hl₂⟩
      intro x hx
      rcases List.mem_cons.1 hx with rfl | hx'
      · exact lt_of_lt_of_le hc hcb'
      · exact hl₁ x hx'
    · have hstep0 : bingeStep (some b) c
          = if bingeRate c > bingeRate b then some c else some b := rfl
      have hstep : bingeStep (some b) c = some b := by
        rw [hstep0, if_neg hc]
      rw [hstep]
      obtain ⟨b', hb', l₁, l₂, hdecomp, hl₁, hl₂⟩ := ih b
      rcases l₁ with _ | ⟨y, l₁'⟩
      · obtain ⟨h1, h2⟩ : b = b' ∧ rest = l₂ := by
          constructor <;> injection hdecomp
        refine ⟨b', hb', [], c :: l₂, ?_, by simp, ?_⟩
        · rw [List.nil_append, ← h1, ← h2]
        · intro x hx
          rcases List.mem_cons.1 hx with rfl | hx'
          · rw [← h1]
            exact le_of_not_lt hc
          · exact hl₂ x hx'
      · obtain ⟨h1, h2⟩ : b = y ∧ rest = l₁' ++ b' :: l₂ := by
          constructor <;> injection hdecomp
        have hbb' : bingeRate b < bingeRate b' := h1 ▸ hl₁ y (List.mem_cons_self y l₁')
        refine ⟨b', hb', b :: c :: l₁', l₂, ?_, ?_, hl₂⟩
        · rw [List.cons_append, List.cons_append, h2]
        · intro x hx
          rcases List.mem_cons.1 hx with rfl | hx'
          · exact hbb'
          rcases List.mem_cons.1 hx' with rfl | hx''
          · exact lt_of_le_of_lt (le_of_not_lt hc) hbb'
          · exact hl₁ x (List.mem_cons_of_mem y hx'')

/-- C7: whenever the aggregator reports a fastest binge, the reported show
is a qualifying one (at least 3 watched episodes, `days` the span between
its first and last episode with a minimum of 1), every qualifying show
visited before it has a strictly smaller binge rate (episodes per day) and
every one after it no larger a rate: it is the first show attaining the
maximal rate. -/
theorem fastestBinge_first_max (movies : List WatchedMovie) (episodes : List WatchedEpisode)
    (favM favE : List ℕ) (b : Binge)
    (h : (computeWrapped movies episodes favM favE).fastestBinge = some b) :
    ∃ l₁ l₂, qualifyingBinges episodes = l₁ ++ b :: l₂ ∧
      (∀ x ∈ l₁, bingeRate x < bingeRate b) ∧
      (∀ x ∈ l₂, bingeRate x ≤ bingeRate b) := by
  have h' : fastestBinge episodes = some b := h
  rw [fastestBinge_eq_foldl] at h'
  cases hq : qualifyingBinges episodes with
  | nil =>
    rw [hq] at h'
    cases h'
  | cons c rest =>
    rw [hq, List.foldl_cons] at h'
    have hfirst : bingeStep none c = some c := rfl
    rw [hfirst] at h'
    obtain ⟨b', hb', l₁, l₂, hdecomp, hl₁, hl₂⟩ := foldl_bingeStep_some rest c
    rw [h'] at hb'
    obtain rfl : b = b' := Option.some.inj hb'
    exact ⟨l₁, l₂, hdecomp ▸ rfl, hl₁, hl₂⟩

/-- Witness for C7: show A (10 episodes over 10 days) loses to show B
(5 episodes over 2 days); the aggregator reports B and B is the first
maximal-rate qualifier. -/
theorem fastestBinge_first_max_witness :
    (computeWrapped [] bingeExampleEpisodes [] []).fastestBinge
        = some { name := "B", days := 2, episodes := 5 } ∧
    ∃ l₁ l₂, qualifyingBinges bingeExampleEpisodes
        = l₁ ++ { name := "B", days := 2, episodes := 5 } :: l₂ ∧
      (∀ x ∈ l₁, bingeRate x < bingeRate { name := "B", days := 2, episodes := 5 }) ∧
      (∀ x ∈ l₂, bingeRate x ≤ bingeRate { name := "B", days := 2, episodes := 5 }) :=
  ⟨by decide, fastestBinge_first_max [] bingeExampleEpisodes [] [] _ (by decide)⟩

theorem foldl_showCount (rest : List WatchedEpisode) (s : ShowAgg) :
    (rest.foldl
      (fun s e' =>
        { s with
          count := s.count + 1
          firstDate := if e'.watchedDate < s.firstDate then e'.watchedDate else s.firstDate
          lastDate := if s.lastDate < e'.watchedDate then e'.watchedDate else s.lastDate })
      s).count = s.count + rest.length := by
  induction rest generalizing s with
  | nil => simp
  | cons e' rest ih =>
    rw [List.foldl_cons, ih]
    simp only [List.length_cons]
    omega

theorem showAggOf_count (episodes : List WatchedEpisode) (sid : ℕ) {sh : ShowAgg}
    (h : showAggOf episodes sid = some sh) :
    sh.count = (episodes.filter fun e => e.seriesId = sid).length := by
  unfold showAggOf at h
  split at h
  · cases h
  · rename_i e rest heq
    obtain rfl := Option.some.inj h
    rw [foldl_showCount, heq]
    show 1 + rest.length = (e :: rest).length
    simp [Nat.add_comm]

theorem showAggOf_isSome (episodes : List WatchedEpisode) (sid : ℕ)
    (h : (episodes.filter fun e => e.seriesId = sid) ≠ []) :
    ∃ sh, showAggOf episodes sid = some sh := by
  unfold showAggOf
  cases hf : episodes.filter (fun e => e.seriesId = sid) with
  | nil => exact absurd hf h
  | cons e rest => exact ⟨_, rfl⟩

/-- C10: the aggregator reports no fastest binge exactly when no series has
3 or more watched episodes; in particular four episodes spread over two
two-episode series give `none`. -/
theorem fastestBinge_none_iff :
    (∀ (movies : List WatchedMovie) (episodes : List WatchedEpisode) (favM favE : List ℕ),
      ((computeWrapped movies episodes favM favE).fastestBinge = none ↔
        ∀ sid : ℕ, (episodes.filter fun e => e.seriesId = sid).length < 3)) ∧
    (computeWrapped [] smallSeriesEpisodes [] []).fastestBinge = none := by
  constructor
  · intro movies episodes favM favE
    show fastestBinge episodes = none ↔ _
    rw [fastestBinge_eq_foldl]
    constructor
    · intro h sid
      by_contra hge
      push_neg at hge
      have hne : (episodes.filter fun e => e.seriesId = sid) ≠ [] := by
        intro hnil
        rw [hnil] at hge
        simp at hge
      obtain ⟨sh, hsh⟩ := showAggOf_isSome episodes sid hne
      have hcount : 3 ≤ sh.count := by
        rw [showAggOf_count episodes sid hsh]
        exact hge
      obtain ⟨e, he⟩ := List.exists_mem_of_ne_nil _ hne
      have he' : e ∈ episodes := (List.mem_filter.1 he).1
      have hesid : e.seriesId = sid := of_decide_eq_true (List.mem_filter.1 he).2
      have hmem : sid ∈ showIds episodes := by
        unfold showIds
        rw [(List.perm_insertionSort _ _).mem_iff, List.mem_dedup]
        exact List.mem_map.2 ⟨e, he', hesid⟩
      have hqmem : ({ name := sh.name, days := bingeDays sh, episodes := sh.count } : Binge)
          ∈ qualifyingBinges episodes := by
        unfold qualifyingBinges
        refine List.mem_filterMap.2 ⟨sid, hmem, ?_⟩
        rw [hsh]
        show (if 3 ≤ sh.count then
            some ({ name := sh.name, days := bingeDays sh, episodes := sh.count } : Binge)
          else none)
            = some ({ name := sh.name, days := bingeDays sh, episodes := sh.count } : Binge)
        rw [if_pos hcount]
      cases hq : qualifyingBinges episodes with
      | nil => rw [hq] at hqmem; cases hqmem
      | cons c rest =>
        rw [hq, List.foldl_cons] at h
        have : bingeStep none c = some c := rfl
        rw [this] at h
        obtain ⟨b', hb', -⟩ := foldl_bingeStep_some rest c
        rw [h] at hb'
        cases hb'
    · intro h
      have hq : qualifyingBinges episodes = [] := by
        unfold qualifyingBinges
        refine List.filterMap_eq_nil_iff.2 fun sid _ => ?_
        cases hsh : showAggOf episodes sid with
        | none => rfl
        | some sh =>
          have hlt : sh.count < 3 := by
            rw [showAggOf_count episodes sid hsh]
            exact h sid
          have h3 : ¬ 3 ≤ sh.count := by omega
          show (if 3 ≤ sh.count then
              some ({ name := sh.name, days := bingeDays sh, episodes := sh.count } : Binge)
            else none) = none
          rw [if_neg h3]
      rw [hq]
      rfl
  · decide

/-! ### C4: longest streak -/

theorem bestRun_ge (rest : List ℕ) (prev curS : ℕ) : curS ≤ bestRun prev curS rest := by
  induction rest generalizing prev curS with
  | nil => exact le_rfl
  | cons d rest ih =>
    have hb : bestRun prev curS (d :: rest)
        = if d - prev = 1 then bestRun d (curS + 1) rest
          else max curS (bestRun d 1 rest) := rfl
    rw [hb]
    split
    · exact le_trans (Nat.le_succ curS) (ih d (curS + 1))
    · exact Nat.le_max_left _ _

theorem bestRun_mono (rest : List ℕ) (prev : ℕ) {a b : ℕ} (hab : a ≤ b) :
    bestRun prev a rest ≤ bestRun prev b rest := by
  induction rest generalizing prev a b with
  | nil => exact hab
  | cons d rest ih =>
    have hb1 : bestRun prev a (d :: rest)
        = if d - prev = 1 then bestRun d (a + 1) rest else max a (bestRun d 1 rest) := rfl
    have hb2 : bestRun prev b (d :: rest)
        = if d - prev = 1 then bestRun d (b + 1) rest else max b (bestRun d 1 rest) := rfl
    rw [hb1, hb2]
    split
    · exact ih d (by omega)
    · exact max_le_max hab le_rfl

theorem streakAux_eq (rest : List ℕ) (prev maxS curS : ℕ)
    (h1 : 1 ≤ curS) (h2 : curS ≤ maxS) :
    streakAux prev maxS curS rest = max maxS (bestRun prev curS rest) := by
  induction rest generalizing prev maxS curS with
  | nil =>
    show maxS = max maxS curS
    exact (Nat.max_eq_left h2).symm
  | cons d rest ih =>
    have hsa : streakAux prev maxS curS (d :: rest)
        = if d - prev = 1 then streakAux d (max maxS (curS + 1)) (curS + 1) rest
          else streakAux d maxS 1 rest := rfl
    have hb : bestRun prev curS (d :: rest)
        = if d - prev = 1 then bestRun d (curS + 1) rest
          else max curS (bestRun d 1 rest) := rfl
    rw [hsa, hb]
    split
    · rw [ih d (max maxS (curS + 1)) (curS + 1) (by omega) (Nat.le_max_right _ _)]
      have hge : curS + 1 ≤ bestRun d (curS + 1) rest := bestRun_ge rest d (curS + 1)
      rw [Nat.max_assoc, Nat.max_eq_right hge]
    · rw [ih d maxS 1 le_rfl (by omega)]
      rw [← Nat.max_assoc, Nat.max_eq_left (by omega : curS ≤ maxS)]

theorem computeStreak_eq_scan (dates : List ℕ) :
    computeStreak dates = scanStreak (uniqueDayKeys dates) := by
  unfold computeStreak
  cases hu : uniqueDayKeys dates with
  | nil => rfl
  | cons d rest =>
    show streakAux d 1 1 rest = bestRun d 1 rest
    rw [streakAux_eq rest d 1 1 le_rfl le_rfl]
    exact Nat.max_eq_right (bestRun_ge rest d 1)

theorem bestRun_sound (rest : List ℕ) (prev curS : ℕ) (l : List ℕ)
    (hsub : ∀ x ∈ prev :: rest, x ∈ l) (hrun : ∀ k < curS, prev - k ∈ l)
    (h1 : 1 ≤ curS) (hle : curS ≤ prev + 1) :
    ∃ d, ∀ k < bestRun prev curS rest, d + k ∈ l := by
  induction rest generalizing prev curS with
  | nil =>
    refine ⟨prev + 1 - curS, fun k hk => ?_⟩
    have hk' : k < curS := hk
    have harith : prev + 1 - curS + k = prev - (curS - 1 - k) := by omega
    rw [harith]
    exact hrun _ (by omega)
  | cons d rest ih =>
    have hb : bestRun prev curS (d :: rest)
        = if d - prev = 1 then bestRun d (curS + 1) rest
          else max curS (bestRun d 1 rest) := rfl
    rw [hb]
    by_cases hd : d - prev = 1
    · rw [if_pos hd]
      refine ih d (curS + 1) (fun x hx => hsub x (List.mem_cons_of_mem prev hx))
        ?_ (by omega) (by omega)
      intro k hk
      rcases Nat.eq_zero_or_pos k with rfl | hpos
      · simpa using hsub d (List.mem_cons_of_mem prev (List.mem_cons_self d rest))
      · have heq : d - k = prev - (k - 1) := by omega
        rw [heq]
        exact hrun (k - 1) (by omega)
    · rw [if_neg hd]
      obtain ⟨d₁, hd₁⟩ := ih d 1 (fun x hx => hsub x (List.mem_cons_of_mem prev hx))
        (fun k hk => by
          have hk0 : k = 0 := by omega
          subst hk0
          simpa using hsub d (List.mem_cons_of_mem prev (List.mem_cons_self d rest)))
        le_rfl (by omega)
      rcases Nat.le_total curS (bestRun d 1 rest) with hmax | hmax
      · refine ⟨d₁, fun k hk => hd₁ k ?_⟩
        rwa [Nat.max_eq_right hmax] at hk
      · refine ⟨prev + 1 - curS, fun k hk => ?_⟩
        rw [Nat.max_eq_left hmax] at hk
        have harith : prev + 1 - curS + k = prev - (curS - 1 - k) := by omega
        rw [harith]
        exact hrun _ (by omega)

theorem bestRun_complete_cont (rest : List ℕ) (prev curS j : ℕ)
    (hchain : List.Chain' (· < ·) (prev :: rest))
    (hcont : ∀ k < j, prev + 1 + k ∈ rest) :
    curS + j ≤ bestRun prev curS rest := by
  induction rest generalizing prev curS j with
  | nil =>
    have hj : j = 0 := by
      by_contra hne
      exact absurd (hcont 0 (by omega)) (List.not_mem_nil _)
    subst hj
    exact le_of_eq (Nat.add_zero curS)
  | cons d rest ih =>
    have hb : bestRun prev curS (d :: rest)
        = if d - prev = 1 then bestRun d (curS + 1) rest
          else max curS (bestRun d 1 rest) := rfl
    rcases Nat.eq_zero_or_pos j with rfl | hj
    · rw [hb]
      split
      · exact le_trans (by omega) (bestRun_ge rest d (curS + 1))
      · exact le_trans (by omega) (Nat.le_max_left _ _)
    · have hmem : prev + 1 ∈ d :: rest := by simpa using hcont 0 hj
      have hpairs : List.Pairwise (· < ·) (prev :: d :: rest) :=
        List.chain'_iff_pairwise.1 hchain
      have hpd : prev < d :=
        (List.pairwise_cons.1 hpairs).1 d (List.mem_cons_self d rest)
      have hdlt : ∀ x ∈ rest, d < x := fun x hx =>
        (List.pairwise_cons.1 (List.pairwise_cons.1 hpairs).2).1 x hx
      have hd : d = prev + 1 := by
        rcases List.mem_cons.1 hmem with h | h
        · omega
        · have := hdlt _ h
          omega
      subst hd
      have hchain' : List.Chain' (· < ·) ((prev + 1) :: rest) := hchain.tail
      have hcont' : ∀ k < j - 1, prev + 1 + 1 + k ∈ rest := by
        intro k hk
        have hmem2 : prev + 1 + (k + 1) ∈ (prev + 1) :: rest := by
          have := hcont (k + 1) (by omega)
          have heq : prev + 1 + (k + 1) = prev + 1 + k + 1 := by omega
          rwa [heq]
        rcases List.mem_cons.1 hmem2 with h | h
        · omega
        · have heq : prev + 1 + 1 + k = prev + 1 + (k + 1) := by omega
          rwa [heq]
      have hih := ih (prev + 1) (curS + 1) (j - 1) hchain' hcont'
      rw [hb, if_pos (by omega : prev + 1 - prev = 1)]
      omega

theorem scanStreak_cons_le (f : ℕ) (rest : List ℕ) :
    scanStreak rest ≤ scanStreak (f :: rest) := by
  cases rest with
  | nil => exact Nat.zero_le _
  | cons d rest' =>
    show bestRun d 1 rest' ≤ bestRun f 1 (d :: rest')
    have hb : bestRun f 1 (d :: rest')
        = if d - f = 1 then bestRun d 2 rest' else max 1 (bestRun d 1 rest') := rfl
    rw [hb]
    split
    · exact bestRun_mono rest' d (by omega)
    · exact Nat.le_max_right _ _

theorem scanStreak_complete (l : List ℕ) (hchain : List.Chain' (· < ·) l)
    (n d : ℕ) (hrun : ∀ k < n, d + k ∈ l) : n ≤ scanStreak l := by
  induction l generalizing n d with
  | nil =>
    rcases Nat.eq_zero_or_pos n with rfl | hn
    · exact le_rfl
    · exact absurd (hrun 0 (by omega)) (List.not_mem_nil _)
  | cons f rest ih =>
    rcases Nat.eq_zero_or_pos n with rfl | hn
    · exact Nat.zero_le _
    have hd : d ∈ f :: rest := by simpa using hrun 0 (by omega)
    have hpairs := List.chain'_iff_pairwise.1 hchain
    have hf : ∀ x ∈ rest, f < x := fun x hx => (List.pairwise_cons.1 hpairs).1 x hx
    rcases List.mem_cons.1 hd with rfl | hdrest
    · have hcont : ∀ k < n - 1, d + 1 + k ∈ rest := by
        intro k hk
        have hmem := hrun (k + 1) (by omega)
        have heq : d + (k + 1) = d + 1 + k := by omega
        rw [heq] at hmem
        rcases List.mem_cons.1 hmem with h | h
        · omega
        · exact h
      have := bestRun_complete_cont rest d 1 (n - 1) hchain hcont
      show n ≤ bestRun d 1 rest
      omega
    · have hrun' : ∀ k < n, d + k ∈ rest := by
        intro k hk
        rcases List.mem_cons.1 (hrun k hk) with h | h
        · have := hf d hdrest
          omega
        · exact h
      exact le_trans (ih hchain.tail n d hrun') (scanStreak_cons_le f rest)

theorem computeStreak_eq_spec (dates : List ℕ) :
    computeStreak dates = specLongestStreak dates := by
  have hmem : ∀ x, x ∈ uniqueDayKeys dates ↔ x ∈ watchDays dates := fun x =>
    (List.perm_insertionSort _ _).mem_iff
  have hnodup : (uniqueDayKeys dates).Nodup :=
    ((List.perm_insertionSort _ _).nodup_iff).2 (List.nodup_dedup _)
  have hsorted : List.Sorted (· ≤ ·) (uniqueDayKeys dates) :=
    List.sorted_insertionSort _ _
  have hchain : List.Chain' (· < ·) (uniqueDayKeys dates) :=
    List.chain'_iff_pairwise.2 (hsorted.lt_of_le hnodup)
  rw [computeStreak_eq_scan]
  unfold specLongestStreak
  cases hu : uniqueDayKeys dates with
  | nil =>
    have hw : watchDays dates = [] := by
      cases hwcase : watchDays dates with
      | nil => rfl
      | cons x xs =>
        exfalso
        have hx : x ∈ uniqueDayKeys dates := (hmem x).2 (hwcase ▸ List.mem_cons_self x xs)
        rw [hu] at hx
        exact List.not_mem_nil x hx
    rw [hw]
    rfl
  | cons f rest =>
    have hchain' : List.Chain' (· < ·) (f :: rest) := hu ▸ hchain
    have hm1 : 1 ≤ scanStreak (f :: rest) := bestRun_ge rest f 1
    have hsub : ∀ x ∈ f :: rest, x ∈ watchDays dates := fun x hx =>
      (hmem x).1 (hu ▸ hx)
    obtain ⟨d, hd⟩ := bestRun_sound rest f 1 (watchDays dates) hsub
      (fun k hk => by
        have hk0 : k = 0 := by omega
        subst hk0
        simpa using hsub f (List.mem_cons_self f rest))
      le_rfl (by omega)
    have hd' : ∀ k < scanStreak (f :: rest), d + k ∈ watchDays dates := hd
    have hPm : consecutiveRun (watchDays dates) (scanStreak (f :: rest)) := by
      refine ⟨d, ?_, fun k hk => hd' k hk⟩
      simpa using hd' 0 (by omega)
    have hcompl : ∀ n, consecutiveRun (watchDays dates) n → n ≤ scanStreak (f :: rest) := by
      rintro n ⟨d', -, hd'run⟩
      refine scanStreak_complete (f :: rest) hchain' n d' fun k hk => ?_
      exact hu ▸ (hmem _).2 (hd'run k hk)
    have hmb : scanStreak (f :: rest) ≤ (watchDays dates).length := by
      have hnodupRange : ((List.range (scanStreak (f :: rest))).map fun k => d + k).Nodup := by
        refine List.Nodup.map (fun a b hab => by omega) (List.nodup_range _)
      have hsubRange :
          ((List.range (scanStreak (f :: rest))).map fun k => d + k) ⊆ watchDays dates := by
        intro x hx
        rcases List.mem_map.1 hx with ⟨k, hk, rfl⟩
        exact hd' k (List.mem_range.1 hk)
      have hlen := (List.subperm_of_subset hnodupRange hsubRange).length_le
      simpa using hlen
    refine (Nat.findGreatest_eq_iff.2 ⟨hmb, fun _ => hPm, ?_⟩).symm
    intro n hlt hnb hPn
    exact absurd (hcompl n hPn) (by omega)

/-- C4: `longestStreak` is the length of the longest run of consecutive
calendar days each containing at least one entry (a single watched day
counting as 1), and the example with entries on days 1, 2, 3, 5, 6, 7, 8
(day 4 missing) yields 4, not 7. -/
theorem longestStreak_spec :
    (∀ (movies : List WatchedMovie) (episodes : List WatchedEpisode) (favM favE : List ℕ),
      (computeWrapped movies episodes favM favE).longestStreak
        = specLongestStreak (allDates movies episodes)) ∧
    (computeWrapped streakExampleMovies [] [] []).longestStreak = 4 := by
  constructor
  · intro movies episodes favM favE
    show computeStreak (allDates movies episodes) = _
    exact computeStreak_eq_spec _
  · decide

end Sidetrack
